import Mathlib

/-!
Verification of the s3-spa-upload sync engine.

The definitions below shallowly embed the TypeScript source of the
package (the latest revision of its main module: fastq-based bounded
work queue, per-page drain during reconciliation, permanent-redirect
retry in the upload executor). Pure string manipulation from the
source is translated to functions on `String` / `List Char`; the
asynchronous parts (bounded queue, paginated reconciliation) are
translated to explicit step relations on small state types.
-/

/-- Models JavaScript `String.prototype.startsWith`: character-wise
comparison of the candidate head of the string. -/
def jsStartsWith (s pat : String) : Bool :=
  pat.data.isPrefixOf s.data

/-- Models JavaScript `String.prototype.endsWith`. -/
def jsEndsWith (s pat : String) : Bool :=
  pat.data.isSuffixOf s.data

/-- Models the orchestrator code
`if (!options.prefix) options.prefix = ""; else options.prefix = options.prefix.endsWith("/") ? options.prefix : options.prefix + "/";`
from `s3SpaUpload`. `none` stands for an absent option; the empty
string is falsy in JavaScript, hence the explicit empty case. -/
def normalizePfx : Option String → String
  | none => ""
  | some s => if s = "" then "" else if jsEndsWith s "/" then s else s ++ "/"

/-- Models `filePath.replace(new RegExp(String.raw` + `^dir/?` + `), "")`
from `s3SpaUpload`, for a directory string free of regular-expression
metacharacters: the regex matches the literal directory at the start of
the path followed by an optional (greedy) slash, and the match is
removed. -/
def stripRoot (dir fp : String) : String :=
  if jsStartsWith fp (dir ++ "/") then String.mk (fp.data.drop (dir.data.length + 1))
  else if jsStartsWith fp dir then String.mk (fp.data.drop dir.data.length)
  else fp

/-- Models the object key built by `uploadToS3`:
`Key: prefix + key` where the orchestrator passes the normalized
prefix option and the root-relative path of the file. -/
def objectKey (dir : String) (pfxOpt : Option String) (fp : String) : String :=
  normalizePfx pfxOpt ++ stripRoot dir fp

/-! ### Cache-control resolution -/

/-- Source constant `CACHE_FOREVER`. -/
def CACHE_FOREVER : String := "public,max-age=31536000,immutable"

/-- Source constant `CACHE_ONE_DAY_SWR_ONE_MONTH`. -/
def CACHE_ONE_DAY_SWR_ONE_MONTH : String :=
  "public,max-age=86400,stale-while-revalidate=2592000"

/-- Source constant `NO_CACHE`. -/
def NO_CACHE : String := "no-cache"

/-- Source constant `CACHE_ONE_MIN_SWR_ONE_MONTH`. -/
def CACHE_ONE_MIN_SWR_ONE_MONTH : String :=
  "public,max-age=60,stale-while-revalidate=2592000"

/-- Source constant `DEFAULT_CACHE_CONTROL_MAPPING`, kept in the
insertion order of the object literal (JavaScript objects preserve
insertion order of string keys, and the resolver iterates
`Object.entries`). -/
def DEFAULT_CACHE_CONTROL_MAPPING : List (String × String) :=
  [("index.html", CACHE_ONE_MIN_SWR_ONE_MONTH),
   ("*.css", CACHE_FOREVER),
   ("*.js", CACHE_FOREVER),
   ("*.png", CACHE_ONE_DAY_SWR_ONE_MONTH),
   ("*.ico", CACHE_ONE_DAY_SWR_ONE_MONTH),
   ("*.txt", CACHE_ONE_DAY_SWR_ONE_MONTH)]

/-- Fuel-indexed glob matching: `*` matches any run of characters other
than the path separator, `?` matches a single character other than the
separator, every other pattern character matches itself. The fuel is a
structural-recursion artifact; `globMatch` supplies enough of it for
the recursion (which shortens pattern-plus-string at every step) never
to exhaust it. -/
def globMatchFuel : Nat → List Char → List Char → Bool
  | 0, _, _ => false
  | _ + 1, [], [] => true
  | _ + 1, [], _ :: _ => false
  | n + 1, '*' :: ps, [] => globMatchFuel n ps []
  | n + 1, '*' :: ps, c :: ss =>
      globMatchFuel n ps (c :: ss) || (decide (c ≠ '/') && globMatchFuel n ('*' :: ps) ss)
  | _ + 1, '?' :: _, [] => false
  | n + 1, '?' :: ps, c :: ss => decide (c ≠ '/') && globMatchFuel n ps ss
  | _ + 1, _ :: _, [] => false
  | n + 1, p :: ps, c :: ss => (p == c) && globMatchFuel n ps ss

/-- Modelled from the spec: the external `minimatch` collaborator is
specified only at its interface ("glob-matches"), so the matcher is a
plain glob interpreter. -/
def globMatch (ps s : List Char) : Bool :=
  globMatchFuel (ps.length + s.length + 1) ps s

/-- Final path segment of a slash-separated path. -/
def baseName (s : String) : String :=
  String.mk ((s.data.reverse.takeWhile (fun c => c ≠ '/')).reverse)

/-- Modelled from the spec: `minimatch(filepath, glob, \x7b matchBase: true \x7d)`
of the external minimatch collaborator — a pattern with no path
separators is matched against the final path segment, a pattern with
separators against the whole path. -/
def minimatchBase (path pat : String) : Bool :=
  if pat.data.contains '/' then globMatch pat.data path.data
  else globMatch pat.data (baseName path).data

/-- Models `getCacheControl`: iterate the mapping entries in order and
return the value of the first pattern that matches; the JavaScript
function falls off the end (returns `undefined`, here `none`) when no
pattern matches. -/
def getCacheControl (filepath : String) : List (String × String) → Option String
  | [] => none
  | (g, cc) :: rest =>
      if minimatchBase filepath g then some cc else getCacheControl filepath rest

/-! ### Reconciliation (`removeOldFiles`) -/

/-- Keys actually present in one page of `ListObjectsV2` contents
(each object record may lack a `Key`, which the source guards with
`obj.Key && ...`). -/
def contentsKeys : List (Option String) → List String
  | [] => []
  | none :: rest => contentsKeys rest
  | some k :: rest => k :: contentsKeys rest

/-- Models the per-page loop body of `removeOldFiles`: an object key is
submitted for deletion exactly when it is present, starts with the
prefix, and is not in `uploadedKeys`. -/
def pageCandidates (uploadedKeys : List String) (pfx : String) :
    List (Option String) → List String
  | [] => []
  | none :: rest => pageCandidates uploadedKeys pfx rest
  | some k :: rest =>
      if jsStartsWith k pfx && !(uploadedKeys.contains k) then
        k :: pageCandidates uploadedKeys pfx rest
      else pageCandidates uploadedKeys pfx rest

/-- Models the full `for await (const page of paginator)` loop of
`removeOldFiles`: pages are processed in order, `page.Contents` may be
absent (the source writes `page.Contents ?? []`). The result is the
list of keys submitted for deletion, in submission order. -/
def removeOldFilesKeys (uploadedKeys : List String) (pfx : String) :
    List (Option (List (Option String))) → List String
  | [] => []
  | page :: rest =>
      pageCandidates uploadedKeys pfx (page.getD []) ++
        removeOldFilesKeys uploadedKeys pfx rest

/-- All keys present anywhere in a paginated listing, in listing order. -/
def listedKeys : List (Option (List (Option String))) → List String
  | [] => []
  | page :: rest => contentsKeys (page.getD []) ++ listedKeys rest

/-! ### Upload executor: permanent-redirect recovery -/

/-- Shape of the storage error observed by `uploadToS3`: the code reads
`err.Code` and `err.Endpoint`. -/
structure S3Error where
  code : String
  endpoint : String
deriving DecidableEq

/-- Matches the fixed 14-character tail `\.amazonaws.com$` of the
redirect regex: a literal dot, the literal `amazonaws`, one arbitrary
non-newline character (the unescaped dot of `.com`), and the literal
`com`, at the very end of the string. -/
def tailExact : List Char → Bool
  | '.' :: 'a' :: 'm' :: 'a' :: 'z' :: 'o' :: 'n' :: 'a' :: 'w' :: 's' ::
      d :: 'c' :: 'o' :: 'm' :: [] => decide (d ≠ '\n')
  | _ => false

/-- Matches `(.*)\.amazonaws.com$` with greedy capture; returns the
characters captured by the group. Greediness is realised by trying to
extend the capture first and falling back to the fixed tail. -/
def matchCaptureTail : List Char → Option (List Char)
  | [] => none
  | c :: rest =>
    match (if c ≠ '\n' then (matchCaptureTail rest).map (fun r => c :: r) else none) with
    | some r => some r
    | none => if tailExact (c :: rest) then some [] else none

/-- Matches `[-\.]?(.*)\.amazonaws.com$`: the optional separator is
consumed greedily when possible. -/
def matchSepCapture : List Char → Option (List Char)
  | [] => matchCaptureTail []
  | c :: rest =>
    if c = '-' ∨ c = '.' then
      match matchCaptureTail rest with
      | some r => some r
      | none => matchCaptureTail (c :: rest)
    else matchCaptureTail (c :: rest)

/-- Continues a match of `.+\.s3[-\.]?(.*)\.amazonaws.com$` after at
least one character has been consumed by `.+`: greedily extend `.+`,
otherwise require the literal `.s3` here and hand over to the
separator-and-capture part. -/
def matchAfterPlus : List Char → Option (List Char)
  | [] => none
  | c :: rest =>
    match (if c ≠ '\n' then matchAfterPlus rest else none) with
    | some r => some r
    | none =>
      match c, rest with
      | '.', 's' :: '3' :: rest2 => matchSepCapture rest2
      | _, _ => none

/-- Attempts the whole pattern starting exactly at the head of the
list: `.+` must consume at least one non-newline character. -/
def matchFrom : List Char → Option (List Char)
  | [] => none
  | c :: rest => if c ≠ '\n' then matchAfterPlus rest else none

/-- Leftmost-match search, as JavaScript `String.prototype.match` with
an unanchored pattern: try each start position from the left. -/
def regexFind : List Char → Option (List Char)
  | [] => none
  | c :: rest =>
    match matchFrom (c :: rest) with
    | some r => some r
    | none => regexFind rest

/-- Models `(err.Endpoint as string).match(/.+\.s3[-\.]?(.*)\.amazonaws.com$/)?.[1]`
from `uploadToS3`: the first capture group of the redirect-endpoint
regex, or `none` when the regex does not match. -/
def extractRegion (s : String) : Option String :=
  (regexFind s.data).map (fun l => String.mk l)

/-- Models `redirectRegion ?? "us-east-1"` from `uploadToS3`. -/
def redirectRegion (e : S3Error) : String :=
  (extractRegion e.endpoint).getD "us-east-1"

/-- Models the `.catch` handler wrapped around the put in `uploadToS3`:
the outcome of the first put attempt is given, and `retry` is the
result of reissuing the same put against a client reinitialized for
the given region. A `PermanentRedirect` failure is replaced by that
single retry (whose own failure propagates untouched); every other
failure is rethrown; a success is returned as is. -/
def sendWithRedirectRetry (first : Except S3Error Unit)
    (retry : String → Except S3Error Unit) : Except S3Error Unit :=
  match first with
  | Except.ok u => Except.ok u
  | Except.error e =>
      if e.code = "PermanentRedirect" then retry (redirectRegion e)
      else Except.error e

/-! ### Concurrency configuration and the bounded work queue -/

/-- Models `options.concurrency ??= 100` from `s3SpaUpload`: only a
missing value is replaced by the default. -/
def resolveConcurrency (c : Option Int) : Int := c.getD 100

/-- Modelled from the spec: constructing the bounded work queue (the
external fastq collaborator, `fastq.promise(worker, concurrency)`)
rejects a concurrency cap below 1 before any job is accepted. -/
def fastqNew (c : Int) : Except String Unit :=
  if c < 1 then Except.error "fastqueue concurrency must be equal to or greater than 1"
  else Except.ok ()

/-- Models the control flow of `walkDirectory`: the file list is built,
the queue is constructed (which validates the cap before any upload
starts), and only then are the files handed to the uploader. -/
def walkDirectoryRun (files : List String) (upl : String → String) (c : Int) :
    Except String (List String) :=
  match fastqNew c with
  | Except.error e => Except.error e
  | Except.ok _ => Except.ok (files.map upl)

/-- State of the bounded work queue: number of worker invocations in
flight and number of queued-but-not-started jobs. -/
structure QState where
  running : Nat
  backlog : Nat
deriving DecidableEq

/-- Modelled from the spec: one step of the bounded work queue
collaborator (fastq) with cap `N`. A pushed job starts a worker at
once when capacity is free and is queued otherwise; a finishing worker
either leaves the pool or immediately starts the next queued job. The
relation places no constraint on when pushes and completions happen,
so every submission sequence is covered. -/
inductive QStep (N : Nat) : QState → QState → Prop
  | pushRun (s : QState) : s.running < N → QStep N s ⟨s.running + 1, s.backlog⟩
  | pushWait (s : QState) : N ≤ s.running → QStep N s ⟨s.running, s.backlog + 1⟩
  | completeIdle (s : QState) : 0 < s.running → s.backlog = 0 →
      QStep N s ⟨s.running - 1, s.backlog⟩
  | completeNext (s : QState) : 0 < s.running → 0 < s.backlog →
      QStep N s ⟨s.running, s.backlog - 1⟩

/-! ### Reconciliation as a step relation (pagination vs. deletion) -/

/-- Program counter of `removeOldFiles`: about to request a page,
submitting the candidates of the current page, awaiting
`q.drained()`, or finished. -/
inductive RPhase where
  | pageStart
  | submitting (pending : List String)
  | draining
  | done
deriving DecidableEq

/-- State of a `removeOldFiles` run: pages the paginator has not yet
yielded, deletions submitted but not yet completed, and the program
counter. -/
structure RState where
  pagesLeft : List (Option (List (Option String)))
  outstanding : Nat
  phase : RPhase

/-- Models the execution of `removeOldFiles` with uploaded set `U` and
prefix `pfx`: a page is fetched only at the head of the loop, its
deletion candidates are pushed one by one, and the loop body ends with
`await q.drained()`, which can only fire once every outstanding
deletion has completed. Deletions complete asynchronously at any
moment (`completeDelete` is enabled in every phase). -/
inductive RStep (U : List String) (pfx : String) : RState → RState → Prop
  | fetchPage (page rest o) :
      RStep U pfx ⟨page :: rest, o, RPhase.pageStart⟩
        ⟨rest, o, RPhase.submitting (pageCandidates U pfx (page.getD []))⟩
  | noMorePages (o) :
      RStep U pfx ⟨[], o, RPhase.pageStart⟩ ⟨[], o, RPhase.done⟩
  | submitDelete (pl o k ks) :
      RStep U pfx ⟨pl, o, RPhase.submitting (k :: ks)⟩
        ⟨pl, o + 1, RPhase.submitting ks⟩
  | submitDone (pl o) :
      RStep U pfx ⟨pl, o, RPhase.submitting []⟩ ⟨pl, o, RPhase.draining⟩
  | completeDelete (pl o ph) :
      RStep U pfx ⟨pl, o + 1, ph⟩ ⟨pl, o, ph⟩
  | drained (pl) :
      RStep U pfx ⟨pl, 0, RPhase.draining⟩ ⟨pl, 0, RPhase.pageStart⟩

/-! ### Shared lemmas -/

theorem contains_eq_true_iff (U : List String) (k : String) :
    U.contains k = true ↔ k ∈ U := by
  simp [List.contains_iff_exists_mem_beq]

theorem contains_eq_false_iff (U : List String) (k : String) :
    U.contains k = false ↔ k ∉ U := by
  rw [← contains_eq_true_iff]
  cases U.contains k <;> simp

theorem jsStartsWith_empty (s : String) : jsStartsWith s "" = true := by
  simp [jsStartsWith]

theorem pageCandidates_eq_filter (U : List String) (pfx : String)
    (l : List (Option String)) :
    pageCandidates U pfx l =
      (contentsKeys l).filter (fun k => jsStartsWith k pfx && !(U.contains k)) := by
  induction l with
  | nil => rfl
  | cons hd tl ih =>
    cases hd with
    | none => simpa [pageCandidates, contentsKeys] using ih
    | some k =>
      by_cases h : (jsStartsWith k pfx && !(U.contains k)) = true <;>
        simp [pageCandidates, contentsKeys, List.filter_cons, h, ih]

theorem removeOldFilesKeys_eq_filter (U : List String) (pfx : String)
    (pages : List (Option (List (Option String)))) :
    removeOldFilesKeys U pfx pages =
      (listedKeys pages).filter (fun k => jsStartsWith k pfx && !(U.contains k)) := by
  induction pages with
  | nil => rfl
  | cons page rest ih =>
    simp [removeOldFilesKeys, listedKeys, List.filter_append, ih,
      pageCandidates_eq_filter]

theorem mem_removeOldFilesKeys (U : List String) (pfx : String)
    (pages : List (Option (List (Option String)))) (k : String) :
    k ∈ removeOldFilesKeys U pfx pages ↔
      (k ∈ listedKeys pages ∧ jsStartsWith k pfx = true ∧ k ∉ U) := by
  rw [removeOldFilesKeys_eq_filter, List.mem_filter]
  constructor
  · rintro ⟨hmem, hpred⟩
    rw [Bool.and_eq_true] at hpred
    exact ⟨hmem, hpred.1, (contains_eq_false_iff U k).1 (by
      have := hpred.2
      cases hU : U.contains k
      · rfl
      · rw [hU] at this; exact absurd this (by decide))⟩
  · rintro ⟨hmem, hs, hu⟩
    refine ⟨hmem, ?_⟩
    rw [Bool.and_eq_true, hs]
    exact ⟨rfl, by rw [(contains_eq_false_iff U k).2 hu]; rfl⟩

theorem isSuffixOf_append_singleton (l : List Char) (c : Char) :
    List.isSuffixOf [c] (l ++ [c]) = true := by
  simp [List.isSuffixOf, List.isPrefixOf_cons₂]

theorem isSuffixOf_pair_append_singleton (l : List Char) (c : Char) :
    List.isSuffixOf [c, c] (l ++ [c]) = List.isSuffixOf [c] l := by
  simp [List.isSuffixOf, List.isPrefixOf_cons₂]

theorem jsEndsWith_append_slash (s : String) : jsEndsWith (s ++ "/") "/" = true := by
  show List.isSuffixOf ['/'] (s.data ++ ['/']) = true
  exact isSuffixOf_append_singleton s.data '/'

theorem jsEndsWith_append_slash_two (s : String) :
    jsEndsWith (s ++ "/") "//" = jsEndsWith s "/" := by
  show List.isSuffixOf ['/', '/'] (s.data ++ ['/']) = List.isSuffixOf ['/'] s.data
  exact isSuffixOf_pair_append_singleton s.data '/'

/-! ### Claim theorems -/

/-- Claim C1: for every uploaded-key set `U`, every prefix, and every
bucket listing however it is paginated, the reconciler submits for
deletion exactly the listed keys that start with the prefix and are
not members of `U`; no key of `U` is ever deleted; and the deletion
list depends only on the flattened listing, not on where the page
boundaries fall. -/
theorem removeOldFiles_deletes_exactly :
    (∀ (pages : List (Option (List (Option String)))) (U : List String) (pfx k : String),
      k ∈ removeOldFilesKeys U pfx pages ↔
        (k ∈ listedKeys pages ∧ jsStartsWith k pfx = true ∧ k ∉ U)) ∧
    (∀ (pages : List (Option (List (Option String)))) (U : List String) (pfx k : String),
      k ∈ U → k ∉ removeOldFilesKeys U pfx pages) ∧
    (∀ (pages pages' : List (Option (List (Option String)))) (U : List String) (pfx : String),
      listedKeys pages = listedKeys pages' →
        removeOldFilesKeys U pfx pages = removeOldFilesKeys U pfx pages') := by
  refine ⟨?_, ?_, ?_⟩
  · intro pages U pfx k; exact mem_removeOldFilesKeys U pfx pages k
  · intro pages U pfx k hk hmem
    exact ((mem_removeOldFilesKeys U pfx pages k).1 hmem).2.2 hk
  · intro pages pages' U pfx h
    rw [removeOldFilesKeys_eq_filter, removeOldFilesKeys_eq_filter, h]

/-- Witness for C1: with uploaded set containing `app.js`, a listing
holding `old.txt` and `app.js` never yields `app.js` for deletion, and
splitting the same listing over two pages yields the same deletions. -/
theorem removeOldFiles_deletes_exactly_witness :
    "app.js" ∉ removeOldFilesKeys ["app.js"] "" [some [some "old.txt", some "app.js"]] ∧
    removeOldFilesKeys ["app.js"] "" [some [some "old.txt"], some [some "app.js"]] =
      removeOldFilesKeys ["app.js"] "" [some [some "old.txt", some "app.js"]] :=
  ⟨removeOldFiles_deletes_exactly.2.1 _ _ _ _ (by decide),
   removeOldFiles_deletes_exactly.2.2 _ _ _ _ (by decide)⟩

/-- Claim C2: a put failing with a permanent-redirect error is retried
exactly once against a client bound to the region extracted from the
endpoint by the pattern of the source regex (`us-east-1` when the
regex does not match, that is when no region is capturable); every
other put failure propagates to the caller without any retry. -/
theorem uploadToS3_redirect_retry :
    (∀ (e : S3Error) (retry : String → Except S3Error Unit),
      e.code = "PermanentRedirect" →
        sendWithRedirectRetry (Except.error e) retry = retry (redirectRegion e)) ∧
    (∀ (e : S3Error) (retry : String → Except S3Error Unit),
      e.code ≠ "PermanentRedirect" →
        sendWithRedirectRetry (Except.error e) retry = Except.error e) ∧
    (∀ retry : String → Except S3Error Unit,
      sendWithRedirectRetry (Except.ok ()) retry = Except.ok ()) ∧
    extractRegion "bucket.s3-eu-west-1.amazonaws.com" = some "eu-west-1" ∧
    redirectRegion ⟨"PermanentRedirect", "bucket.s3-eu-west-1.amazonaws.com"⟩ = "eu-west-1" ∧
    (∀ e : S3Error, extractRegion e.endpoint = none → redirectRegion e = "us-east-1") := by
  refine ⟨?_, ?_, ?_, by decide, by decide, ?_⟩
  · intro e retry h; simp [sendWithRedirectRetry, h]
  · intro e retry h; simp [sendWithRedirectRetry, h]
  · intro retry; rfl
  · intro e h; simp [redirectRegion, h]

/-- Witness for C2: a permanent redirect naming
`bucket.s3-eu-west-1.amazonaws.com` is replaced by the single retry
issued at region `eu-west-1`, while an `AccessDenied` failure
propagates untouched. -/
theorem uploadToS3_redirect_retry_witness :
    sendWithRedirectRetry
        (Except.error ⟨"PermanentRedirect", "bucket.s3-eu-west-1.amazonaws.com"⟩)
        (fun r => Except.error ⟨"RetriedIn:" ++ r, ""⟩) =
      Except.error ⟨"RetriedIn:eu-west-1", ""⟩ ∧
    sendWithRedirectRetry
        (Except.error ⟨"AccessDenied", "bucket.s3-eu-west-1.amazonaws.com"⟩)
        (fun _ => Except.ok ()) =
      Except.error ⟨"AccessDenied", "bucket.s3-eu-west-1.amazonaws.com"⟩ := by
  have h := uploadToS3_redirect_retry
  refine ⟨?_, ?_⟩
  · rw [h.1 ⟨"PermanentRedirect", "bucket.s3-eu-west-1.amazonaws.com"⟩
        (fun r => Except.error ⟨"RetriedIn:" ++ r, ""⟩) rfl, h.2.2.2.2.1]
    rfl
  · exact h.2.1 _ _ (by decide)

/-- Counterexample for C3 as stated: the non-empty configured value
`a//` is mapped to itself, a string whose trailing run of separators
has length two — so the result does not end in exactly one trailing
separator. -/
theorem normalizePfx_counterexample :
    ("a//" : String) ≠ "" ∧ normalizePfx (some "a//") = "a//" ∧
    jsEndsWith (normalizePfx (some "a//")) "//" = true := by decide

/-- Claim C3 (amended): an absent or empty prefix normalizes to the
empty string; a non-empty prefix normalizes to a string ending in at
least one trailing separator — unchanged when it already ends in `/`,
otherwise with exactly one `/` appended (in which case the result ends
in exactly one trailing separator). -/
theorem normalizePfx_amended :
    normalizePfx none = "" ∧ normalizePfx (some "") = "" ∧
    (∀ s : String, s ≠ "" → jsEndsWith (normalizePfx (some s)) "/" = true) ∧
    (∀ s : String, s ≠ "" → jsEndsWith s "/" = true → normalizePfx (some s) = s) ∧
    (∀ s : String, s ≠ "" → jsEndsWith s "/" = false →
      normalizePfx (some s) = s ++ "/" ∧ jsEndsWith (normalizePfx (some s)) "//" = false) := by
  refine ⟨rfl, rfl, ?_, ?_, ?_⟩
  · intro s hs
    by_cases h : jsEndsWith s "/" = true
    · simp [normalizePfx, hs, h]
    · simp [normalizePfx, hs, h, jsEndsWith_append_slash]
  · intro s hs h; simp [normalizePfx, hs, h]
  · intro s hs h
    constructor
    · simp [normalizePfx, hs, h]
    · simp [normalizePfx, hs, h, jsEndsWith_append_slash_two]

/-- Witness for C3 (amended): `mobile` gains exactly one separator and
`mobile/` is kept unchanged. -/
theorem normalizePfx_amended_witness :
    normalizePfx (some "mobile") = "mobile" ++ "/" ∧
    jsEndsWith (normalizePfx (some "mobile")) "//" = false ∧
    normalizePfx (some "mobile/") = "mobile/" ∧
    jsEndsWith (normalizePfx (some "mobile")) "/" = true :=
  ⟨(normalizePfx_amended.2.2.2.2 "mobile" (by decide) (by decide)).1,
   (normalizePfx_amended.2.2.2.2 "mobile" (by decide) (by decide)).2,
   normalizePfx_amended.2.2.2.1 "mobile/" (by decide) (by decide),
   normalizePfx_amended.2.2.1 "mobile" (by decide)⟩

/-- Claim C4: a file at `root/sub/dir/app.js` under root `root` with
configured prefix `mobile` is written to key `mobile/sub/dir/app.js`:
the normalized prefix concatenated with the root-relative path, which
carries no leading separator. -/
theorem objectKey_mobile_example :
    objectKey "root" (some "mobile") "root/sub/dir/app.js" = "mobile/sub/dir/app.js" ∧
    objectKey "root" (some "mobile") "root/sub/dir/app.js" =
      normalizePfx (some "mobile") ++ "sub/dir/app.js" ∧
    stripRoot "root" "root/sub/dir/app.js" = "sub/dir/app.js" ∧
    jsStartsWith (stripRoot "root" "root/sub/dir/app.js") "/" = false := by decide

/-- Claim C5: cache-control resolution iterates the mapping in
insertion order and returns the value of the first matching pattern
(`none` exactly when no pattern matches); a pattern without path
separators may match just the final path segment; and for the mapping
`ordered pairs index.html to A then star-dot-html to B`, resolving
`index.html` yields `A`, not `B`, even though both patterns match. -/
theorem getCacheControl_first_match :
    (∀ (p g v : String) (rest : List (String × String)),
      minimatchBase p g = true → getCacheControl p ((g, v) :: rest) = some v) ∧
    (∀ (p g v : String) (rest : List (String × String)),
      minimatchBase p g = false → getCacheControl p ((g, v) :: rest) = getCacheControl p rest) ∧
    (∀ p : String, getCacheControl p [] = none) ∧
    (∀ (p : String) (m : List (String × String)),
      getCacheControl p m = none ↔ ∀ gv ∈ m, minimatchBase p gv.1 = false) ∧
    (∀ A B : String,
      getCacheControl "index.html" [("index.html", A), ("*.html", B)] = some A) ∧
    minimatchBase "index.html" "*.html" = true ∧
    minimatchBase "sub/dir/app.css" "*.css" = true := by
  refine ⟨?_, ?_, ?_, ?_, ?_, by decide, by decide⟩
  · intro p g v rest h; simp [getCacheControl, h]
  · intro p g v rest h; simp [getCacheControl, h]
  · intro p; rfl
  · intro p m
    induction m with
    | nil => simp [getCacheControl]
    | cons hd tl ih =>
      obtain ⟨g, v⟩ := hd
      by_cases h : minimatchBase p g = true
      · simp [getCacheControl, h]
      · simp only [Bool.not_eq_true] at h
        simp [getCacheControl, h, ih]
  · intro A B
    simp [getCacheControl, show minimatchBase "index.html" "index.html" = true from by decide]

/-- Witness for C5: the first matching pattern wins and a non-matching
head is skipped. -/
theorem getCacheControl_first_match_witness :
    getCacheControl "app.css" [("*.css", "X"), ("*.js", "Y")] = some "X" ∧
    getCacheControl "app.css" [("*.js", "Y")] = getCacheControl "app.css" [] :=
  ⟨getCacheControl_first_match.1 "app.css" "*.css" "X" _ (by decide),
   getCacheControl_first_match.2.1 "app.css" "*.js" "Y" [] (by decide)⟩

/-- Claim C6: the default cache-control mapping assigns, in this
order, `index.html` a 1-minute max-age with 30-day
stale-while-revalidate, `*.css` and `*.js` a 1-year immutable cache,
and `*.png`, `*.ico`, `*.txt` a 1-day max-age with 30-day
stale-while-revalidate (2592000 seconds is 30 days, 31536000 is 365
days, 86400 is one day). -/
theorem defaultCacheControlMapping_spec :
    DEFAULT_CACHE_CONTROL_MAPPING =
      [("index.html", "public,max-age=60,stale-while-revalidate=2592000"),
       ("*.css", "public,max-age=31536000,immutable"),
       ("*.js", "public,max-age=31536000,immutable"),
       ("*.png", "public,max-age=86400,stale-while-revalidate=2592000"),
       ("*.ico", "public,max-age=86400,stale-while-revalidate=2592000"),
       ("*.txt", "public,max-age=86400,stale-while-revalidate=2592000")] ∧
    (2592000 = 30 * 86400) ∧ (31536000 = 365 * 86400) ∧ (86400 = 24 * 60 * 60) := by decide

/-- Claim C7: an unset concurrency option defaults to 100, a set value
is kept as given, and a configured cap below 1 makes the run reject at
queue construction, before any upload is handed to the uploader. -/
theorem s3SpaUpload_concurrency_spec :
    resolveConcurrency none = 100 ∧
    (∀ c : Int, resolveConcurrency (some c) = c) ∧
    (∀ c : Int, c < 1 → ∀ (files : List String) (upl : String → String),
      walkDirectoryRun files upl c =
        Except.error "fastqueue concurrency must be equal to or greater than 1") ∧
    (∀ c : Int, 1 ≤ c → ∀ (files : List String) (upl : String → String),
      walkDirectoryRun files upl c = Except.ok (files.map upl)) := by
  refine ⟨rfl, fun c => rfl, ?_, ?_⟩
  · intro c hc files upl
    simp [walkDirectoryRun, fastqNew, hc]
  · intro c hc files upl
    simp [walkDirectoryRun, fastqNew, show ¬(c < 1) from by omega]

/-- Witness for C7: concurrency 0 is refused without uploading, and
concurrency 100 uploads the file list. -/
theorem s3SpaUpload_concurrency_spec_witness :
    walkDirectoryRun ["index.html"] id 0 =
      Except.error "fastqueue concurrency must be equal to or greater than 1" ∧
    walkDirectoryRun ["index.html"] id 100 = Except.ok ["index.html"] :=
  ⟨s3SpaUpload_concurrency_spec.2.2.1 0 (by decide) ["index.html"] id,
   by have h := s3SpaUpload_concurrency_spec.2.2.2 100 (by decide) ["index.html"] id
      simpa using h⟩

/-- Claim C8: for every concurrency cap `N` of at least 1 and every
interleaving of job submissions and completions allowed by the bounded
work queue, every reachable queue state has at most `N` worker
invocations outstanding. -/
theorem bounded_queue_outstanding_le (N : Nat) (_hN : 1 ≤ N) (s : QState)
    (h : Relation.ReflTransGen (QStep N) ⟨0, 0⟩ s) : s.running ≤ N := by
  induction h with
  | refl => exact Nat.zero_le N
  | tail hab step ih =>
    cases step with
    | pushRun ht => exact ht
    | pushWait ht => exact ih
    | completeIdle h1 h2 => exact Nat.le_trans (Nat.sub_le _ _) ih
    | completeNext h1 h2 => exact ih

/-- Witness for C8: with cap 1, pushing one job reaches a state with
one running worker, within the bound. -/
theorem bounded_queue_outstanding_le_witness :
    (QState.mk 1 0).running ≤ 1 :=
  bounded_queue_outstanding_le 1 (by decide) ⟨1, 0⟩
    (Relation.ReflTransGen.single (QStep.pushRun ⟨0, 0⟩ (by decide)))

/-- Claim C9: in every reachable state of a `removeOldFiles` run, the
program is at the head of the pagination loop (about to request a
page) or finished only when every previously submitted deletion has
completed — a listing-page fetch never overlaps deletions from an
earlier page. -/
theorem removeOldFiles_drains_between_pages
    (U : List String) (pfx : String)
    (pages : List (Option (List (Option String)))) (s : RState)
    (h : Relation.ReflTransGen (RStep U pfx) ⟨pages, 0, RPhase.pageStart⟩ s) :
    (s.phase = RPhase.pageStart → s.outstanding = 0) ∧
    (s.phase = RPhase.done → s.outstanding = 0) := by
  induction h with
  | refl => exact ⟨fun _ => rfl, fun _ => rfl⟩
  | tail hab step ih =>
    cases step with
    | fetchPage => exact ⟨fun hc => by simp at hc, fun hc => by simp at hc⟩
    | noMorePages => exact ⟨fun hc => by simp at hc, fun _ => ih.1 rfl⟩
    | submitDelete => exact ⟨fun hc => by simp at hc, fun hc => by simp at hc⟩
    | submitDone => exact ⟨fun hc => by simp at hc, fun hc => by simp at hc⟩
    | completeDelete =>
      exact ⟨fun hc => absurd (ih.1 hc) (Nat.succ_ne_zero _),
             fun hc => absurd (ih.2 hc) (Nat.succ_ne_zero _)⟩
    | drained => exact ⟨fun _ => rfl, fun hc => by simp at hc⟩

/-- Witness for C9: an empty listing run finishes with zero
outstanding deletions. -/
theorem removeOldFiles_drains_between_pages_witness :
    ((⟨[], 0, RPhase.done⟩ : RState)).outstanding = 0 :=
  (removeOldFiles_drains_between_pages [] "" [] ⟨[], 0, RPhase.done⟩
    (Relation.ReflTransGen.single (RStep.noMorePages 0))).2 rfl

/-- Claim C10: with the empty prefix (the normalization of an absent
or empty option), the prefix filter excludes nothing, so the deletion
candidates are exactly the listed keys outside the uploaded set — the
reconciliation spans the whole bucket. -/
theorem empty_pfx_spans_bucket :
    (∀ s : String, jsStartsWith s "" = true) ∧
    normalizePfx none = "" ∧ normalizePfx (some "") = "" ∧
    (∀ (pages : List (Option (List (Option String)))) (U : List String) (k : String),
      k ∈ removeOldFilesKeys U "" pages ↔ (k ∈ listedKeys pages ∧ k ∉ U)) := by
  refine ⟨jsStartsWith_empty, rfl, rfl, ?_⟩
  intro pages U k
  rw [mem_removeOldFilesKeys]
  simp [jsStartsWith_empty]
